import Mathlib

/-!
A shallow embedding of the k-means clustering and proximity-graph program of
`src/DS 210 Final Project/Project/src/main.rs`, with proofs of the
specification's claims about it.

Modelling conventions:

* The Rust `f64` feature values are modelled as exact rationals (`ℚ`), so
  arithmetic is the ideal arithmetic the program computes with (no rounding,
  no overflow, no NaN).
* `euclidean_distance` (main.rs 89-94) returns the square root of a sum of
  squares and is consumed only through `<` comparisons (against a running
  minimum or against a threshold).  `Real.sqrt` is not computable, so the
  model carries the square `euclidean_distance_sq` and compares squares,
  which is equivalent because the square root is strictly monotone on
  nonnegative numbers; `distLt_iff_sqrt_lt` proves the equivalence for the
  threshold comparison used by `build_graph`.
* `initialize_centroids` (main.rs 34-37) draws a random sample via rand's
  `choose_multiple`; the random source is injected as a `choose` parameter.
  `choose_multiple` returns `min k n` elements of the slice (all of them, in
  random order, when `k` exceeds the length) and has no failure path.
* The accumulation loop of `update_centroids` (main.rs 69-76) indexes
  `new_centroids[cluster]`, which panics in Rust when a label is out of
  range; the model's `List.set`/`List.getD` are then no-ops instead, and
  every theorem touching that corner carries the in-range-labels
  precondition, which holds at every call site of the program.
-/

/-- `Country` (main.rs 8-15): one record, with the three numeric features and
the optional cluster label. -/
structure Country where
  name : String
  communicable : ℚ
  non_communicable : ℚ
  co2 : ℚ
  cluster : Option ℕ
  deriving DecidableEq

/-- The square of `euclidean_distance` (main.rs 89-94). -/
def euclidean_distance_sq (a b : Country) : ℚ :=
  (a.communicable - b.communicable) ^ 2
    + (a.non_communicable - b.non_communicable) ^ 2
    + (a.co2 - b.co2) ^ 2

/-- The all-zero placeholder centroid created by `update_centroids`
(main.rs 57-66): empty name, zero features, no label.  Also used as the
default element of `List.getD` lookups. -/
def zeroCentroid : Country :=
  { name := "", communicable := 0, non_communicable := 0, co2 := 0, cluster := none }

/-- The inner loop of `assign_clusters` (main.rs 44-50): walk the centroids
with the running index `i`, the best distance so far and the index it was
seen at.  `none` models the initial `f64::MAX`, which every actual distance
is below; distances are compared through their squares. -/
def bestClusterAux (c : Country) : List Country → ℕ → Option ℚ → ℕ → ℕ
  | [], _, _, assigned => assigned
  | cen :: rest, i, none, _ =>
      bestClusterAux c rest (i + 1) (some (euclidean_distance_sq c cen)) i
  | cen :: rest, i, some m, assigned =>
      if euclidean_distance_sq c cen < m then
        bestClusterAux c rest (i + 1) (some (euclidean_distance_sq c cen)) i
      else
        bestClusterAux c rest (i + 1) (some m) assigned

/-- The cluster index `assign_clusters` gives one record (main.rs 41-52):
starts at `assigned_cluster = 0` with `min_distance = f64::MAX`. -/
def bestCluster (c : Country) (centroids : List Country) : ℕ :=
  bestClusterAux c centroids 0 none 0

/-- `assign_clusters` (main.rs 39-54): set every record's label to the index
of its closest centroid (`None` beforehand or not — the field is overwritten
unconditionally). -/
def assign_clusters (countries centroids : List Country) : List Country :=
  countries.map fun c => { c with cluster := some (bestCluster c centroids) }

/-- One `+=` round of the accumulation loop of `update_centroids`
(main.rs 71-73): add a record's features into a running centroid sum. -/
def addInto (cen c : Country) : Country :=
  { cen with
      communicable := cen.communicable + c.communicable
      non_communicable := cen.non_communicable + c.non_communicable
      co2 := cen.co2 + c.co2 }

/-- The accumulation loop of `update_centroids` (main.rs 69-76): records with
a label add their features into `new_centroids[label]` and bump
`counts[label]`; unlabelled records are skipped. -/
def accumulate : List Country → List Country → List ℕ → List Country × List ℕ
  | [], cens, counts => (cens, counts)
  | c :: rest, cens, counts =>
      match c.cluster with
      | none => accumulate rest cens counts
      | some j =>
          accumulate rest (cens.set j (addInto (cens.getD j zeroCentroid) c))
            (counts.set j (counts.getD j 0 + 1))

/-- `update_centroids` (main.rs 56-87): start from `k` zero placeholders,
accumulate feature sums and counts, then divide each slot whose count is
positive (a slot with count zero keeps the zero vector). -/
def update_centroids (countries : List Country) (k : ℕ) : List Country :=
  let acc := accumulate countries (List.replicate k zeroCentroid) (List.replicate k 0)
  (acc.1.zip acc.2).map fun p =>
    if 0 < p.2 then
      { p.1 with
          communicable := p.1.communicable / (p.2 : ℚ)
          non_communicable := p.1.non_communicable / (p.2 : ℚ)
          co2 := p.1.co2 / (p.2 : ℚ) }
    else p.1

/-- The iteration loop of `kmeans` (main.rs 99-108), instrumented with the
number of assignment passes performed (third component) so that the break
behaviour is observable.  Each round assigns, computes the candidate
centroids, and breaks when the candidate equals the current centroids under
the derived (all fields) equality `PartialEq`. -/
def kmeansLoop (countries centroids : List Country) (k : ℕ) :
    ℕ → List Country × List Country × ℕ
  | 0 => (countries, centroids, 0)
  | n + 1 =>
      let countries1 := assign_clusters countries centroids
      let cand := update_centroids countries1 k
      if centroids = cand then (countries1, centroids, 1)
      else
        ((kmeansLoop countries1 cand k n).1,
         (kmeansLoop countries1 cand k n).2.1,
         (kmeansLoop countries1 cand k n).2.2 + 1)

/-- `kmeans` (main.rs 96-111), its random `initialize_centroids`
(main.rs 34-37) injected as `choose`; it returns the record list of the last
assignment pass (or the input unchanged when `max_iterations = 0`). -/
def kmeans (choose : List Country → ℕ → List Country)
    (countries : List Country) (k max_iterations : ℕ) : List Country :=
  (kmeansLoop countries (choose countries k) k max_iterations).1

/-- The contract of rand's `choose_multiple` as `initialize_centroids`
(main.rs 34-37) uses it: `min k n` elements drawn from the slice, with no
failure path. -/
def ChoosesSample (choose : List Country → ℕ → List Country) : Prop :=
  ∀ cs k, (choose cs k).length = min k cs.length ∧ ∀ c ∈ choose cs k, c ∈ cs

/-- One concrete resolution of the injected randomness: take the first
`min k n` records (a possible outcome of `choose_multiple`). -/
def chooseFirst (cs : List Country) (k : ℕ) : List Country := cs.take k

/-- The comparison `euclidean_distance(a, b) < threshold` of `build_graph`
(main.rs 120-121), expressed on squares: for `d ≥ 0`,
`sqrt d < t ↔ 0 < t ∧ d < t ^ 2` (see `distLt_iff_sqrt_lt`). -/
def distLt (a b : Country) (t : ℚ) : Bool :=
  decide (0 < t) && decide (euclidean_distance_sq a b < t ^ 2)

/-- `build_graph` (main.rs 113-130): for every record, the names of the other
records (name inequality is what the code checks) whose distance is strictly
below the threshold, in input order. -/
def build_graph (countries : List Country) (threshold : ℚ) :
    List (String × List String) :=
  countries.map fun c =>
    (c.name,
      (countries.filter fun o => (c.name != o.name) && distLt c o threshold).map
        (·.name))

/-- The records currently labelled with cluster index `j`. -/
def clusterMembers (countries : List Country) (j : ℕ) : List Country :=
  countries.filter fun c => c.cluster == some j

/-- One record's contribution to the within-cluster squared distance, given a
centroid list: the squared distance to its labelled centroid (0 when the
record is unlabelled). -/
def costOf (c : Country) (centroids : List Country) : ℚ :=
  match c.cluster with
  | some j => euclidean_distance_sq c (centroids.getD j zeroCentroid)
  | none => 0

/-- Total within-cluster squared distance of a labelled record list against a
centroid list. -/
def cost (countries centroids : List Country) : ℚ :=
  (countries.map (costOf · centroids)).sum

/-- The centroid `update_centroids` produces for a cluster with a nonzero
member count: the component-wise mean of the members' features, with the
empty name and unset label of the accumulation placeholder. -/
def meanCentroid (members : List Country) : Country :=
  { name := ""
    communicable := (members.map (·.communicable)).sum / (members.length : ℚ)
    non_communicable := (members.map (·.non_communicable)).sum / (members.length : ℚ)
    co2 := (members.map (·.co2)).sum / (members.length : ℚ)
    cluster := none }

/-- Record `A = (10, 20, 5)` of the specification's concrete scenarios. -/
def countryA : Country :=
  { name := "CountryA", communicable := 10, non_communicable := 20, co2 := 5, cluster := none }

/-- Record `B = (15, 25, 10)` of the specification's concrete scenarios. -/
def countryB : Country :=
  { name := "CountryB", communicable := 15, non_communicable := 25, co2 := 10, cluster := none }

/-- Record `C = (30, 35, 20)` of the specification's concrete scenarios. -/
def countryC : Country :=
  { name := "CountryC", communicable := 30, non_communicable := 35, co2 := 20, cluster := none }

/-- `countryA` labelled with cluster 0. -/
def countryA0 : Country := { countryA with cluster := some 0 }

/-- `countryB` labelled with cluster 0. -/
def countryB0 : Country := { countryB with cluster := some 0 }

/-- `countryC` labelled with cluster 1. -/
def countryC1 : Country := { countryC with cluster := some 1 }

/-- A one-record working set for the concrete loop runs. -/
def cexA : Country :=
  { name := "A", communicable := 1, non_communicable := 2, co2 := 3, cluster := none }

/-- `cexA` labelled with cluster 0. -/
def cexA0 : Country := { cexA with cluster := some 0 }

/-- The centroid `update_centroids` computes from `[cexA0]`: the same feature
vector as `cexA`, but with the empty placeholder name. -/
def cexM : Country :=
  { name := "", communicable := 1, non_communicable := 2, co2 := 3, cluster := none }

lemma euclidean_distance_sq_nonneg (a b : Country) : 0 ≤ euclidean_distance_sq a b := by
  unfold euclidean_distance_sq; positivity

lemma euclidean_distance_sq_comm (a b : Country) :
    euclidean_distance_sq a b = euclidean_distance_sq b a := by
  unfold euclidean_distance_sq; ring

lemma euclidean_distance_sq_self (a : Country) : euclidean_distance_sq a a = 0 := by
  unfold euclidean_distance_sq; ring

/-- The square-comparison form `distLt` agrees with the code's comparison of
the real square root against the threshold. -/
lemma distLt_iff_sqrt_lt (a b : Country) (t : ℚ) :
    distLt a b t = true ↔ Real.sqrt ((euclidean_distance_sq a b : ℚ) : ℝ) < (t : ℝ) := by
  unfold distLt
  rcases le_or_lt t 0 with h | h
  · have h1 : ¬ (0 : ℚ) < t := not_lt.mpr h
    have h2 : ¬ Real.sqrt ((euclidean_distance_sq a b : ℚ) : ℝ) < (t : ℝ) := by
      refine not_lt.mpr (le_trans ?_ (Real.sqrt_nonneg _))
      exact_mod_cast h
    simp [h1, h2]
  · have ht : (0 : ℝ) < (t : ℝ) := by exact_mod_cast h
    rw [Bool.and_eq_true, decide_eq_true_eq, decide_eq_true_eq, Real.sqrt_lt' ht]
    constructor
    · rintro ⟨-, h2⟩
      exact_mod_cast h2
    · intro h2
      exact ⟨h, by exact_mod_cast h2⟩

/-- C9: the program's distance (the square root of `euclidean_distance_sq`)
is symmetric, nonnegative, and zero between identical feature vectors. -/
theorem euclidean_distance_metric (a b : Country) :
    Real.sqrt ((euclidean_distance_sq a b : ℚ) : ℝ)
        = Real.sqrt ((euclidean_distance_sq b a : ℚ) : ℝ) ∧
      0 ≤ Real.sqrt ((euclidean_distance_sq a b : ℚ) : ℝ) ∧
      Real.sqrt ((euclidean_distance_sq a a : ℚ) : ℝ) = 0 := by
  refine ⟨by rw [euclidean_distance_sq_comm], Real.sqrt_nonneg _, ?_⟩
  rw [euclidean_distance_sq_self]
  norm_num

/-- C10: with `max_iterations = 0` the loop body of `kmeans` never runs: no
assignment pass is performed and the records are returned unchanged; in
particular records whose label is unassigned stay unassigned. -/
theorem kmeans_zero_iterations (choose : List Country → ℕ → List Country)
    (countries : List Country) (k : ℕ) :
    kmeans choose countries k 0 = countries ∧
      (kmeansLoop countries (choose countries k) k 0).2.2 = 0 ∧
      ((∀ c ∈ countries, c.cluster = none) →
        ∀ c ∈ kmeans choose countries k 0, c.cluster = none) := by
  refine ⟨rfl, rfl, ?_⟩
  intro h c hc
  exact h c hc

lemma bestClusterAux_spec (c : Country) (rest : List Country) :
    ∀ (i a : ℕ) (m : ℚ),
      (bestClusterAux c rest i (some m) a = a ∧
        ∀ idx, idx < rest.length →
          m ≤ euclidean_distance_sq c (rest.getD idx zeroCentroid))
      ∨ ∃ idx, idx < rest.length ∧
          bestClusterAux c rest i (some m) a = i + idx ∧
          euclidean_distance_sq c (rest.getD idx zeroCentroid) < m ∧
          (∀ idx2, idx2 < rest.length →
            euclidean_distance_sq c (rest.getD idx zeroCentroid)
              ≤ euclidean_distance_sq c (rest.getD idx2 zeroCentroid)) ∧
          (∀ idx2, idx2 < idx →
            euclidean_distance_sq c (rest.getD idx zeroCentroid)
              < euclidean_distance_sq c (rest.getD idx2 zeroCentroid)) := by
  induction rest with
  | nil =>
      intro i a m
      left
      refine ⟨rfl, ?_⟩
      intro idx h
      simp at h
  | cons cen rest ih =>
      intro i a m
      by_cases hlt : euclidean_distance_sq c cen < m
      · have hstep : bestClusterAux c (cen :: rest) i (some m) a
            = bestClusterAux c rest (i + 1) (some (euclidean_distance_sq c cen)) i := by
          simp only [bestClusterAux, if_pos hlt]
        rcases ih (i + 1) i (euclidean_distance_sq c cen) with
          ⟨heq, hmin⟩ | ⟨idx, hidx, heq, hlt2, hmin, hfirst⟩
        · right
          refine ⟨0, by simp, ?_, ?_, ?_, ?_⟩
          · rw [hstep, heq]; omega
          · simpa using hlt
          · intro idx2 h2
            match idx2 with
            | 0 => simp
            | idx2 + 1 =>
                simpa using hmin idx2 (by simpa using h2)
          · intro idx2 h2
            omega
        · right
          refine ⟨idx + 1, by simpa using Nat.succ_lt_succ hidx, ?_, ?_, ?_, ?_⟩
          · rw [hstep, heq]; omega
          · simpa using lt_trans hlt2 hlt
          · intro idx2 h2
            match idx2 with
            | 0 => simpa using (hlt2.le)
            | idx2 + 1 =>
                simpa using hmin idx2 (by simpa using h2)
          · intro idx2 h2
            match idx2 with
            | 0 => simpa using hlt2
            | idx2 + 1 =>
                simpa using hfirst idx2 (by omega)
      · have hstep : bestClusterAux c (cen :: rest) i (some m) a
            = bestClusterAux c rest (i + 1) (some m) a := by
          simp only [bestClusterAux, if_neg hlt]
        rcases ih (i + 1) a m with
          ⟨heq, hmin⟩ | ⟨idx, hidx, heq, hlt2, hmin, hfirst⟩
        · left
          refine ⟨by rw [hstep, heq], ?_⟩
          intro idx2 h2
          match idx2 with
          | 0 => simpa using not_lt.mp hlt
          | idx2 + 1 =>
              simpa using hmin idx2 (by simpa using h2)
        · right
          refine ⟨idx + 1, by simpa using Nat.succ_lt_succ hidx, ?_, ?_, ?_, ?_⟩
          · rw [hstep, heq]; omega
          · simpa using hlt2
          · intro idx2 h2
            match idx2 with
            | 0 => simpa using le_trans hlt2.le (not_lt.mp hlt)
            | idx2 + 1 =>
                simpa using hmin idx2 (by simpa using h2)
          · intro idx2 h2
            match idx2 with
            | 0 => simpa using lt_of_lt_of_le hlt2 (not_lt.mp hlt)
            | idx2 + 1 =>
                simpa using hfirst idx2 (by omega)

/-- `bestCluster` picks a valid index, of minimal distance, and the first
index attaining that minimum (strictly smaller distance than every earlier
index). -/
lemma bestCluster_spec (c : Country) (centroids : List Country) (hne : centroids ≠ []) :
    bestCluster c centroids < centroids.length ∧
      (∀ j, j < centroids.length →
        euclidean_distance_sq c (centroids.getD (bestCluster c centroids) zeroCentroid)
          ≤ euclidean_distance_sq c (centroids.getD j zeroCentroid)) ∧
      (∀ j, j < bestCluster c centroids →
        euclidean_distance_sq c (centroids.getD (bestCluster c centroids) zeroCentroid)
          < euclidean_distance_sq c (centroids.getD j zeroCentroid)) := by
  match centroids with
  | [] => exact absurd rfl hne
  | cen :: rest =>
      have hstep : bestCluster c (cen :: rest)
          = bestClusterAux c rest 1 (some (euclidean_distance_sq c cen)) 0 := rfl
      rcases bestClusterAux_spec c rest 1 0 (euclidean_distance_sq c cen) with
        ⟨heq, hmin⟩ | ⟨idx, hidx, heq, hlt2, hmin, hfirst⟩
      · have hb : bestCluster c (cen :: rest) = 0 := by rw [hstep, heq]
        refine ⟨by simp [hb], ?_, ?_⟩
        · intro j hj
          rw [hb]
          match j with
          | 0 => simp
          | j + 1 =>
              simpa using hmin j (by simpa using hj)
        · intro j hj
          rw [hb] at hj
          omega
      · have hb : bestCluster c (cen :: rest) = idx + 1 := by rw [hstep, heq]; omega
        refine ⟨by simp [hb]; omega, ?_, ?_⟩
        · intro j hj
          rw [hb]
          match j with
          | 0 => simpa using hlt2.le
          | j + 1 =>
              simpa using hmin j (by simpa using hj)
        · intro j hj
          rw [hb] at hj
          rw [hb]
          match j with
          | 0 => simpa using hlt2
          | j + 1 =>
              simpa using hfirst j (by omega)

lemma assign_clusters_length (countries centroids : List Country) :
    (assign_clusters countries centroids).length = countries.length := by
  unfold assign_clusters
  exact List.length_map _ _

lemma assign_clusters_getD (countries centroids : List Country) (i : ℕ)
    (hi : i < countries.length) :
    (assign_clusters countries centroids).getD i zeroCentroid
      = { countries.getD i zeroCentroid with
          cluster := some (bestCluster (countries.getD i zeroCentroid) centroids) } := by
  unfold assign_clusters
  rw [List.getD_eq_getElem _ _ (by simpa using hi), List.getElem_map,
    List.getD_eq_getElem _ _ hi]

lemma assign_clusters_mem (countries centroids : List Country) :
    ∀ x ∈ assign_clusters countries centroids,
      ∃ c ∈ countries, x = { c with cluster := some (bestCluster c centroids) } := by
  intro x hx
  rcases List.mem_map.mp hx with ⟨c, hc, rfl⟩
  exact ⟨c, hc, rfl⟩

/-- C4: every record is assigned to the first centroid index achieving the
minimum distance under strict less-than comparison; a later centroid at equal
distance never overrides the earlier one (the assigned index has strictly
smaller distance than every earlier index, and distance less than or equal to
every index).  Distances are compared through their squares, equivalently to
the code's comparison of square roots. -/
theorem assign_clusters_first_min (countries centroids : List Country)
    (hne : centroids ≠ []) (i : ℕ) (hi : i < countries.length) :
    ((assign_clusters countries centroids).getD i zeroCentroid).cluster
        = some (bestCluster (countries.getD i zeroCentroid) centroids) ∧
      bestCluster (countries.getD i zeroCentroid) centroids < centroids.length ∧
      (∀ j, j < centroids.length →
        euclidean_distance_sq (countries.getD i zeroCentroid)
            (centroids.getD (bestCluster (countries.getD i zeroCentroid) centroids)
              zeroCentroid)
          ≤ euclidean_distance_sq (countries.getD i zeroCentroid)
              (centroids.getD j zeroCentroid)) ∧
      (∀ j, j < bestCluster (countries.getD i zeroCentroid) centroids →
        euclidean_distance_sq (countries.getD i zeroCentroid)
            (centroids.getD (bestCluster (countries.getD i zeroCentroid) centroids)
              zeroCentroid)
          < euclidean_distance_sq (countries.getD i zeroCentroid)
              (centroids.getD j zeroCentroid)) := by
  obtain ⟨h1, h2, h3⟩ := bestCluster_spec (countries.getD i zeroCentroid) centroids hne
  exact ⟨by rw [assign_clusters_getD countries centroids i hi], h1, h2, h3⟩

lemma distLt_comm (a b : Country) (t : ℚ) : distLt a b t = distLt b a t := by
  unfold distLt
  rw [euclidean_distance_sq_comm]

lemma build_graph_getD (cs : List Country) (t : ℚ) (i : ℕ) (hi : i < cs.length) :
    (build_graph cs t).getD i ("", [])
      = ((cs.getD i zeroCentroid).name,
          (cs.filter fun o =>
              ((cs.getD i zeroCentroid).name != o.name) && distLt (cs.getD i zeroCentroid) o t).map
            (·.name)) := by
  unfold build_graph
  rw [List.getD_eq_getElem _ _ (by simpa using hi), List.getElem_map,
    List.getD_eq_getElem _ _ hi]

lemma pairwise_names_getD (cs : List Country)
    (hnames : cs.Pairwise fun a b => a.name ≠ b.name)
    (i j : ℕ) (hi : i < cs.length) (hj : j < cs.length) (hij : i ≠ j) :
    (cs.getD i zeroCentroid).name ≠ (cs.getD j zeroCentroid).name := by
  rw [List.getD_eq_getElem _ _ hi, List.getD_eq_getElem _ _ hj]
  have hp := List.pairwise_iff_getElem.mp hnames
  rcases Nat.lt_or_ge i j with h | h
  · exact hp i j hi hj h
  · exact (hp j i hj hi (by omega)).symm

/-- Membership in a `build_graph` adjacency entry, characterised by index:
with pairwise-distinct names, the name of record `j` is a neighbour of record
`i` exactly when `j ≠ i` and the distance is below the threshold. -/
lemma mem_build_graph_iff (cs : List Country) (t : ℚ)
    (hnames : cs.Pairwise fun a b => a.name ≠ b.name)
    (i j : ℕ) (hi : i < cs.length) (hj : j < cs.length) :
    (cs.getD j zeroCentroid).name ∈ ((build_graph cs t).getD i ("", [])).2
      ↔ j ≠ i ∧ distLt (cs.getD i zeroCentroid) (cs.getD j zeroCentroid) t = true := by
  rw [build_graph_getD cs t i hi]
  simp only [List.mem_map, List.mem_filter, Bool.and_eq_true, bne_iff_ne]
  constructor
  · rintro ⟨o, ⟨ho_mem, hname_ne, hdist⟩, hname⟩
    obtain ⟨j2, hj2, ho⟩ := List.mem_iff_getElem.mp ho_mem
    have hoD : o = cs.getD j2 zeroCentroid := by
      rw [List.getD_eq_getElem _ _ hj2, ho]
    have hj2j : j2 = j := by
      by_contra hne
      exact pairwise_names_getD cs hnames j2 j hj2 hj hne (by rw [← hoD, hname])
    subst hj2j
    rw [hoD] at hname_ne hdist
    refine ⟨?_, hdist⟩
    intro hji
    subst hji
    exact hname_ne rfl
  · rintro ⟨hne, hdist⟩
    refine ⟨cs.getD j zeroCentroid, ⟨?_, ?_, hdist⟩, rfl⟩
    · rw [List.getD_eq_getElem _ _ hj]
      exact List.getElem_mem _
    · exact pairwise_names_getD cs hnames i j hi hj (fun h => hne h.symm)

/-- C3: with pairwise-distinct names, `build_graph` records the name of record
`j` as a neighbour of record `i` exactly when the records are distinct
(`j ≠ i`) and their distance is strictly below the threshold; in particular a
record's own name never appears in its adjacency entry. -/
theorem build_graph_adjacency (cs : List Country) (t : ℚ)
    (hnames : cs.Pairwise fun a b => a.name ≠ b.name)
    (i j : ℕ) (hi : i < cs.length) (hj : j < cs.length) :
    ((cs.getD j zeroCentroid).name ∈ ((build_graph cs t).getD i ("", [])).2
        ↔ j ≠ i ∧ distLt (cs.getD i zeroCentroid) (cs.getD j zeroCentroid) t = true) ∧
      (cs.getD i zeroCentroid).name ∉ ((build_graph cs t).getD i ("", [])).2 := by
  refine ⟨mem_build_graph_iff cs t hnames i j hi hj, fun hmem => ?_⟩
  exact ((mem_build_graph_iff cs t hnames i i hi hi).mp hmem).1 rfl

/-- C6: with pairwise-distinct names, the adjacency `build_graph` produces is
symmetric: if the name of record `j` appears in the entry of record `i`, the
name of record `i` appears in the entry of record `j`. -/
theorem build_graph_symmetric (cs : List Country) (t : ℚ)
    (hnames : cs.Pairwise fun a b => a.name ≠ b.name)
    (i j : ℕ) (hi : i < cs.length) (hj : j < cs.length)
    (hmem : (cs.getD j zeroCentroid).name ∈ ((build_graph cs t).getD i ("", [])).2) :
    (cs.getD i zeroCentroid).name ∈ ((build_graph cs t).getD j ("", [])).2 := by
  obtain ⟨hne, hd⟩ := (mem_build_graph_iff cs t hnames i j hi hj).mp hmem
  refine (mem_build_graph_iff cs t hnames j i hj hi).mpr ⟨fun h => hne h.symm, ?_⟩
  rw [distLt_comm]
  exact hd

lemma Country.ext' (x y : Country) (h1 : x.name = y.name)
    (h2 : x.communicable = y.communicable) (h3 : x.non_communicable = y.non_communicable)
    (h4 : x.co2 = y.co2) (h5 : x.cluster = y.cluster) : x = y := by
  cases x; cases y; simp_all

lemma accumulate_length (cs : List Country) :
    ∀ (cens : List Country) (counts : List ℕ),
      (accumulate cs cens counts).1.length = cens.length ∧
        (accumulate cs cens counts).2.length = counts.length := by
  induction cs with
  | nil => intro cens counts; exact ⟨rfl, rfl⟩
  | cons c rest ih =>
      intro cens counts
      cases hc : c.cluster with
      | none => simpa [accumulate, hc] using ih cens counts
      | some j =>
          have h := ih (cens.set j (addInto (cens.getD j zeroCentroid) c))
            (counts.set j (counts.getD j 0 + 1))
          simp only [accumulate, hc] at h ⊢
          simpa [List.length_set] using h

lemma clusterMembers_cons_none (c : Country) (rest : List Country) (j : ℕ)
    (hc : c.cluster = none) :
    clusterMembers (c :: rest) j = clusterMembers rest j := by
  simp [clusterMembers, List.filter_cons, hc]

lemma clusterMembers_cons_eq (c : Country) (rest : List Country) (j : ℕ)
    (hc : c.cluster = some j) :
    clusterMembers (c :: rest) j = c :: clusterMembers rest j := by
  simp [clusterMembers, List.filter_cons, hc]

lemma clusterMembers_cons_ne (c : Country) (rest : List Country) (j j0 : ℕ)
    (hc : c.cluster = some j0) (hne : j0 ≠ j) :
    clusterMembers (c :: rest) j = clusterMembers rest j := by
  simp [clusterMembers, List.filter_cons, hc, hne]

lemma accumulate_feature (f : Country → ℚ)
    (hf : ∀ cen c, f (addInto cen c) = f cen + f c) (cs : List Country) :
    ∀ (cens : List Country) (counts : List ℕ) (j : ℕ), j < cens.length →
      f ((accumulate cs cens counts).1.getD j zeroCentroid)
        = f (cens.getD j zeroCentroid) + ((clusterMembers cs j).map f).sum := by
  induction cs with
  | nil =>
      intro cens counts j hj
      simp [accumulate, clusterMembers]
  | cons c rest ih =>
      intro cens counts j hj
      cases hc : c.cluster with
      | none =>
          rw [show accumulate (c :: rest) cens counts = accumulate rest cens counts from by
              simp [accumulate, hc],
            clusterMembers_cons_none c rest j hc]
          exact ih cens counts j hj
      | some j0 =>
          rw [show accumulate (c :: rest) cens counts
              = accumulate rest (cens.set j0 (addInto (cens.getD j0 zeroCentroid) c))
                (counts.set j0 (counts.getD j0 0 + 1)) from by simp [accumulate, hc]]
          by_cases hjj : j0 = j
          · subst hjj
            rw [ih _ _ j0 (by simpa [List.length_set] using hj),
              clusterMembers_cons_eq c rest j0 hc]
            have hset : (cens.set j0 (addInto (cens.getD j0 zeroCentroid) c)).getD j0
                zeroCentroid = addInto (cens.getD j0 zeroCentroid) c := by
              rw [List.getD_eq_getElem _ _ (by simpa [List.length_set] using hj),
                List.getElem_set_self]
            rw [hset, hf]
            simp only [List.map_cons, List.sum_cons]
            ring
          · rw [ih _ _ j (by simpa [List.length_set] using hj),
              clusterMembers_cons_ne c rest j j0 hc hjj]
            have hset : (cens.set j0 (addInto (cens.getD j0 zeroCentroid) c)).getD j
                zeroCentroid = cens.getD j zeroCentroid := by
              rw [List.getD_eq_getElem _ _ (by simpa [List.length_set] using hj),
                List.getElem_set_ne hjj, List.getD_eq_getElem _ _ hj]
            rw [hset]

lemma accumulate_carrier {α : Type} (g : Country → α)
    (hg : ∀ cen c, g (addInto cen c) = g cen) (cs : List Country) :
    ∀ (cens : List Country) (counts : List ℕ) (j : ℕ), j < cens.length →
      g ((accumulate cs cens counts).1.getD j zeroCentroid)
        = g (cens.getD j zeroCentroid) := by
  induction cs with
  | nil => intro cens counts j hj; rfl
  | cons c rest ih =>
      intro cens counts j hj
      cases hc : c.cluster with
      | none =>
          rw [show accumulate (c :: rest) cens counts = accumulate rest cens counts from by
              simp [accumulate, hc]]
          exact ih cens counts j hj
      | some j0 =>
          rw [show accumulate (c :: rest) cens counts
              = accumulate rest (cens.set j0 (addInto (cens.getD j0 zeroCentroid) c))
                (counts.set j0 (counts.getD j0 0 + 1)) from by simp [accumulate, hc]]
          rw [ih _ _ j (by simpa [List.length_set] using hj)]
          by_cases hjj : j0 = j
          · subst hjj
            have hset : (cens.set j0 (addInto (cens.getD j0 zeroCentroid) c)).getD j0
                zeroCentroid = addInto (cens.getD j0 zeroCentroid) c := by
              rw [List.getD_eq_getElem _ _ (by simpa [List.length_set] using hj),
                List.getElem_set_self]
            rw [hset, hg]
          · have hset : (cens.set j0 (addInto (cens.getD j0 zeroCentroid) c)).getD j
                zeroCentroid = cens.getD j zeroCentroid := by
              rw [List.getD_eq_getElem _ _ (by simpa [List.length_set] using hj),
                List.getElem_set_ne hjj, List.getD_eq_getElem _ _ hj]
            rw [hset]

lemma accumulate_count (cs : List Country) :
    ∀ (cens : List Country) (counts : List ℕ) (j : ℕ), j < counts.length →
      (accumulate cs cens counts).2.getD j 0
        = counts.getD j 0 + (clusterMembers cs j).length := by
  induction cs with
  | nil =>
      intro cens counts j hj
      simp [accumulate, clusterMembers]
  | cons c rest ih =>
      intro cens counts j hj
      cases hc : c.cluster with
      | none =>
          rw [show accumulate (c :: rest) cens counts = accumulate rest cens counts from by
              simp [accumulate, hc],
            clusterMembers_cons_none c rest j hc]
          exact ih cens counts j hj
      | some j0 =>
          rw [show accumulate (c :: rest) cens counts
              = accumulate rest (cens.set j0 (addInto (cens.getD j0 zeroCentroid) c))
                (counts.set j0 (counts.getD j0 0 + 1)) from by simp [accumulate, hc]]
          by_cases hjj : j0 = j
          · subst hjj
            rw [ih _ _ j0 (by simpa [List.length_set] using hj),
              clusterMembers_cons_eq c rest j0 hc]
            have hset : (counts.set j0 (counts.getD j0 0 + 1)).getD j0 0
                = counts.getD j0 0 + 1 := by
              rw [List.getD_eq_getElem _ _ (by simpa [List.length_set] using hj),
                List.getElem_set_self]
            rw [hset]
            simp [List.length_cons]
            omega
          · rw [ih _ _ j (by simpa [List.length_set] using hj),
              clusterMembers_cons_ne c rest j j0 hc hjj]
            have hset : (counts.set j0 (counts.getD j0 0 + 1)).getD j 0
                = counts.getD j 0 := by
              rw [List.getD_eq_getElem _ _ (by simpa [List.length_set] using hj),
                List.getElem_set_ne hjj, List.getD_eq_getElem _ _ hj]
            rw [hset]

lemma update_centroids_length (cs : List Country) (k : ℕ) :
    (update_centroids cs k).length = k := by
  have h := accumulate_length cs (List.replicate k zeroCentroid) (List.replicate k 0)
  simp only [update_centroids]
  rw [List.length_map, List.length_zip, h.1, h.2]
  simp

lemma getD_map_of_lt {α β : Type} (f : α → β) (l : List α) (i : ℕ) (hi : i < l.length)
    (d : β) (e : α) : (l.map f).getD i d = f (l.getD i e) := by
  rw [List.getD_eq_getElem _ _ (by simpa using hi), List.getElem_map,
    List.getD_eq_getElem _ _ hi]

lemma getD_zip_of_lt {α β : Type} (l : List α) (l2 : List β) (i : ℕ)
    (h1 : i < l.length) (h2 : i < l2.length) (d1 : α) (d2 : β) :
    (l.zip l2).getD i (d1, d2) = (l.getD i d1, l2.getD i d2) := by
  rw [List.getD_eq_getElem _ _ (by rw [List.length_zip]; omega), List.getElem_zip,
    List.getD_eq_getElem _ _ h1, List.getD_eq_getElem _ _ h2]

lemma update_centroids_getD (cs : List Country) (k j : ℕ) (hj : j < k) :
    (update_centroids cs k).getD j zeroCentroid
      = if (clusterMembers cs j).length = 0 then zeroCentroid
        else meanCentroid (clusterMembers cs j) := by
  have hlen := accumulate_length cs (List.replicate k zeroCentroid) (List.replicate k 0)
  have h1 : (accumulate cs (List.replicate k zeroCentroid) (List.replicate k 0)).1.length
      = k := by rw [hlen.1, List.length_replicate]
  have h2 : (accumulate cs (List.replicate k zeroCentroid) (List.replicate k 0)).2.length
      = k := by rw [hlen.2, List.length_replicate]
  have hrepD : (List.replicate k zeroCentroid).getD j zeroCentroid = zeroCentroid := by
    rw [List.getD_eq_getElem _ _ (by simpa using hj), List.getElem_replicate]
  have hrepN : (List.replicate k (0 : ℕ)).getD j 0 = 0 := by
    rw [List.getD_eq_getElem _ _ (by simpa using hj), List.getElem_replicate]
  have hcount := accumulate_count cs (List.replicate k zeroCentroid) (List.replicate k 0) j
    (by simpa using hj)
  rw [hrepN, Nat.zero_add] at hcount
  have hcomm := accumulate_feature (·.communicable) (fun cen c => rfl) cs
    (List.replicate k zeroCentroid) (List.replicate k 0) j (by simpa using hj)
  have hnc := accumulate_feature (·.non_communicable) (fun cen c => rfl) cs
    (List.replicate k zeroCentroid) (List.replicate k 0) j (by simpa using hj)
  have hco2 := accumulate_feature (·.co2) (fun cen c => rfl) cs
    (List.replicate k zeroCentroid) (List.replicate k 0) j (by simpa using hj)
  have hname := accumulate_carrier (·.name) (fun cen c => rfl) cs
    (List.replicate k zeroCentroid) (List.replicate k 0) j (by simpa using hj)
  have hclu := accumulate_carrier (·.cluster) (fun cen c => rfl) cs
    (List.replicate k zeroCentroid) (List.replicate k 0) j (by simpa using hj)
  rw [hrepD] at hcomm hnc hco2 hname hclu
  beta_reduce at hcomm hnc hco2 hname hclu
  rw [show zeroCentroid.communicable = 0 from rfl, zero_add] at hcomm
  rw [show zeroCentroid.non_communicable = 0 from rfl, zero_add] at hnc
  rw [show zeroCentroid.co2 = 0 from rfl, zero_add] at hco2
  rw [show zeroCentroid.name = "" from rfl] at hname
  rw [show zeroCentroid.cluster = none from rfl] at hclu
  simp only [update_centroids]
  rw [getD_map_of_lt _ _ j (by rw [List.length_zip, h1, h2]; simpa using hj) _
      (zeroCentroid, (0 : ℕ)),
    getD_zip_of_lt _ _ j (by rw [h1]; exact hj) (by rw [h2]; exact hj)]
  simp only [hcount]
  by_cases hmem : (clusterMembers cs j).length = 0
  · rw [if_pos hmem, if_neg (by omega)]
    refine Country.ext' _ _ (by rw [hname]; rfl) ?_ ?_ ?_ (by rw [hclu]; rfl)
    · rw [hcomm]
      simp [List.length_eq_zero.mp hmem, zeroCentroid]
    · rw [hnc]
      simp [List.length_eq_zero.mp hmem, zeroCentroid]
    · rw [hco2]
      simp [List.length_eq_zero.mp hmem, zeroCentroid]
  · rw [if_neg hmem, if_pos (by omega)]
    refine Country.ext' _ _ (by simpa [meanCentroid] using hname) ?_ ?_ ?_
      (by simpa [meanCentroid] using hclu)
    · show _ / _ = _
      rw [hcomm]
      simp [meanCentroid]
    · show _ / _ = _
      rw [hnc]
      simp [meanCentroid]
    · show _ / _ = _
      rw [hco2]
      simp [meanCentroid]

/-- C5: in a centroid-update step over in-range labels, every cluster index
with a nonzero count of assigned records gets the component-wise mean of its
members' feature vectors, and every cluster index with zero assigned records
gets the zero vector (not the previous centroid — the update never reads the
previous centroid set). -/
theorem update_centroids_mean_or_zero (cs : List Country) (k j : ℕ) (hj : j < k)
    (hlab : ∀ c ∈ cs, ∀ m, c.cluster = some m → m < k) :
    ((clusterMembers cs j).length ≠ 0 →
        (update_centroids cs k).getD j zeroCentroid = meanCentroid (clusterMembers cs j)) ∧
      ((clusterMembers cs j).length = 0 →
        (update_centroids cs k).getD j zeroCentroid = zeroCentroid) := by
  constructor <;> intro h <;> rw [update_centroids_getD cs k j hj]
  · rw [if_neg h]
  · rw [if_pos h]

lemma kmeansLoop_succ_of_eq (countries centroids : List Country) (k n : ℕ)
    (h : centroids = update_centroids (assign_clusters countries centroids) k) :
    kmeansLoop countries centroids k (n + 1)
      = (assign_clusters countries centroids, centroids, 1) := by
  simp only [kmeansLoop]
  rw [if_pos h]

lemma kmeansLoop_succ_of_ne (countries centroids : List Country) (k n : ℕ)
    (h : centroids ≠ update_centroids (assign_clusters countries centroids) k) :
    kmeansLoop countries centroids k (n + 1)
      = ((kmeansLoop (assign_clusters countries centroids)
            (update_centroids (assign_clusters countries centroids) k) k n).1,
         (kmeansLoop (assign_clusters countries centroids)
            (update_centroids (assign_clusters countries centroids) k) k n).2.1,
         (kmeansLoop (assign_clusters countries centroids)
            (update_centroids (assign_clusters countries centroids) k) k n).2.2 + 1) := by
  simp only [kmeansLoop]
  rw [if_neg h]

lemma kmeansLoop_pass_pos (countries centroids : List Country) (k n : ℕ) :
    1 ≤ (kmeansLoop countries centroids k (n + 1)).2.2 := by
  by_cases h : centroids = update_centroids (assign_clusters countries centroids) k
  · rw [kmeansLoop_succ_of_eq _ _ _ _ h]
  · rw [kmeansLoop_succ_of_ne _ _ _ _ h]
    norm_num

/-- C2 (amended): with at least two budgeted iterations, the loop stops after
exactly one assignment pass, keeping the current centroids, precisely when
the candidate produced by the update equals the current centroid set in all
fields — name and cluster label included, as the derived `PartialEq`
compares — not merely feature-wise; otherwise the candidate is adopted and
iteration continues with it. -/
theorem kmeans_convergence_check (countries centroids : List Country) (k n : ℕ) :
    (kmeansLoop countries centroids k (n + 2)
        = (assign_clusters countries centroids, centroids, 1)
      ↔ centroids = update_centroids (assign_clusters countries centroids) k) ∧
      (centroids ≠ update_centroids (assign_clusters countries centroids) k →
        kmeansLoop countries centroids k (n + 2)
          = ((kmeansLoop (assign_clusters countries centroids)
                (update_centroids (assign_clusters countries centroids) k) k (n + 1)).1,
             (kmeansLoop (assign_clusters countries centroids)
                (update_centroids (assign_clusters countries centroids) k) k (n + 1)).2.1,
             (kmeansLoop (assign_clusters countries centroids)
                (update_centroids (assign_clusters countries centroids) k) k (n + 1)).2.2
               + 1)) := by
  have hn2 : n + 2 = (n + 1) + 1 := rfl
  constructor
  · constructor
    · intro heq
      by_contra hne
      rw [hn2, kmeansLoop_succ_of_ne _ _ _ _ hne] at heq
      have h3 : (kmeansLoop (assign_clusters countries centroids)
          (update_centroids (assign_clusters countries centroids) k) k (n + 1)).2.2 + 1
            = 1 := by
        simpa using congrArg (fun p => p.2.2) heq
      have hpos := kmeansLoop_pass_pos (assign_clusters countries centroids)
        (update_centroids (assign_clusters countries centroids) k) k n
      omega
    · intro h
      rw [hn2]
      exact kmeansLoop_succ_of_eq _ _ _ _ h
  · intro h
    rw [hn2]
    exact kmeansLoop_succ_of_ne _ _ _ _ h

lemma assign_cexA_self : assign_clusters [cexA] [cexA] = [cexA0] := rfl

lemma assign_cexA0_M : assign_clusters [cexA0] [cexM] = [cexA0] := rfl

lemma upd_cexA0_1 : update_centroids [cexA0] 1 = [cexM] := by
  norm_num [update_centroids, accumulate, addInto, zeroCentroid, cexA0, cexA, cexM,
    List.replicate]

lemma upd_cexA0_2 : update_centroids [cexA0] 2 = [cexM, zeroCentroid] := by
  norm_num [update_centroids, accumulate, addInto, zeroCentroid, cexA0, cexA, cexM,
    List.replicate]

lemma assign_cexA0_M2 : assign_clusters [cexA0] [cexM, zeroCentroid] = [cexA0] := by
  have hb : bestCluster cexA0 [cexM, zeroCentroid] = 0 := by
    have h14 : ¬ euclidean_distance_sq cexA0 zeroCentroid
        < euclidean_distance_sq cexA0 cexM := by
      norm_num [euclidean_distance_sq, cexA0, cexA, cexM, zeroCentroid]
    simp only [bestCluster, bestClusterAux, if_neg h14]
  simp only [assign_clusters, List.map, hb]
  rfl

/-- C2 (counterexample to the claim as stated): on the one-record working set
`[cexA]` with the sampled record itself as initial centroid and `k = 1`, the
first update's candidate has feature vectors component-wise equal to the
current centroid's, yet the loop does not stop after the first assignment
pass: the full-record equality check fails on the name field ("A" against the
placeholder's empty name), the candidate is adopted, and a second assignment
pass runs. -/
theorem kmeans_feature_converged_not_stopped :
    ((update_centroids (assign_clusters [cexA] [cexA]) 1).map
        fun c => (c.communicable, c.non_communicable, c.co2))
      = ([cexA].map fun c => (c.communicable, c.non_communicable, c.co2)) ∧
      (kmeansLoop [cexA] [cexA] 1 2).2.2 = 2 := by
  constructor
  · rw [assign_cexA_self, upd_cexA0_1]
    simp [cexM, cexA]
  · have hne : ([cexA] : List Country)
        ≠ update_centroids (assign_clusters [cexA] [cexA]) 1 := by
      rw [assign_cexA_self, upd_cexA0_1]
      simp [cexA, cexM]
    rw [show (2 : ℕ) = 1 + 1 from rfl, kmeansLoop_succ_of_ne _ _ _ _ hne]
    rw [assign_cexA_self, upd_cexA0_1]
    have heq : ([cexM] : List Country)
        = update_centroids (assign_clusters [cexA0] [cexM]) 1 := by
      rw [assign_cexA0_M, upd_cexA0_1]
    rw [kmeansLoop_succ_of_eq _ _ _ _ heq]

/-- C1 (the code at the failing input): with a one-record working set and
`k = 2 > 1`, no error of any kind is surfaced — the program has no error
path — and clustering proceeds with the `min(k, n) = 1` sampled centroid,
returning the record labelled with cluster 0. -/
theorem kmeans_no_insufficient_data_error :
    ([cexA] : List Country).length < 2 ∧
      kmeans chooseFirst [cexA] 2 3 = [cexA0] ∧
      ∀ c ∈ kmeans chooseFirst [cexA] 2 3, c.cluster.isSome = true := by
  have hne : ([cexA] : List Country)
      ≠ update_centroids (assign_clusters [cexA] [cexA]) 2 := by
    rw [assign_cexA_self, upd_cexA0_2]
    simp
  have heq : ([cexM, zeroCentroid] : List Country)
      = update_centroids (assign_clusters [cexA0] [cexM, zeroCentroid]) 2 := by
    rw [assign_cexA0_M2, upd_cexA0_2]
  have hrun : kmeansLoop [cexA] [cexA] 2 3 = ([cexA0], [cexM, zeroCentroid], 2) := by
    rw [show (3 : ℕ) = 2 + 1 from rfl, kmeansLoop_succ_of_ne _ _ _ _ hne]
    rw [assign_cexA_self, upd_cexA0_2]
    rw [kmeansLoop_succ_of_eq _ _ _ _ heq]
    rw [assign_cexA0_M2]
  have hk : kmeans chooseFirst [cexA] 2 3 = [cexA0] := by
    show (kmeansLoop [cexA] (chooseFirst [cexA] 2) 2 3).1 = [cexA0]
    rw [show chooseFirst [cexA] 2 = [cexA] from rfl, hrun]
  refine ⟨by simp, hk, ?_⟩
  intro c hc
  rw [hk] at hc
  rw [List.mem_singleton.mp hc]
  rfl

/-- C7 (counterexample to the claim as stated): an assignment pass against an
empty centroid collection (`k = 0`, reachable through `kmeans` with `k = 0`)
still labels every record with cluster 0, which is not in the empty range
`[0, 0)` and is not a valid index into the empty centroid collection. -/
theorem assign_clusters_label_range_cex :
    (assign_clusters [cexA] []).map Country.cluster = [some 0] ∧
      ¬ 0 < ([] : List Country).length := by
  exact ⟨rfl, by simp⟩

/-- C7 (amended): after an assignment pass against at least one centroid,
every record's cluster label is assigned and is a valid index into the
centroid collection — in the range `[0, k)` when there are `k` centroids. -/
theorem assign_clusters_label_range (countries centroids : List Country)
    (hne : centroids ≠ []) :
    ∀ x ∈ assign_clusters countries centroids,
      ∃ j, x.cluster = some j ∧ j < centroids.length := by
  intro x hx
  rcases assign_clusters_mem countries centroids x hx with ⟨c, hc, rfl⟩
  exact ⟨bestCluster c centroids, rfl, (bestCluster_spec c centroids hne).1⟩

theorem assign_clusters_label_range_witness :
    ∃ j, ((assign_clusters [countryA] [countryB, countryC]).getD 0 zeroCentroid).cluster
        = some j ∧ j < ([countryB, countryC] : List Country).length :=
  assign_clusters_label_range [countryA] [countryB, countryC] (by simp) _
    (by rw [List.getD_eq_getElem _ _ (by simp [assign_clusters])]
        exact List.getElem_mem _)

theorem assign_clusters_first_min_witness :
    ((assign_clusters [countryA] [countryA, countryB]).getD 0 zeroCentroid).cluster
        = some (bestCluster ([countryA].getD 0 zeroCentroid) [countryA, countryB]) ∧
      bestCluster ([countryA].getD 0 zeroCentroid) [countryA, countryB]
          < ([countryA, countryB] : List Country).length ∧
      (∀ j, j < ([countryA, countryB] : List Country).length →
        euclidean_distance_sq ([countryA].getD 0 zeroCentroid)
            (([countryA, countryB] : List Country).getD
              (bestCluster ([countryA].getD 0 zeroCentroid) [countryA, countryB])
              zeroCentroid)
          ≤ euclidean_distance_sq ([countryA].getD 0 zeroCentroid)
              (([countryA, countryB] : List Country).getD j zeroCentroid)) ∧
      (∀ j, j < bestCluster ([countryA].getD 0 zeroCentroid) [countryA, countryB] →
        euclidean_distance_sq ([countryA].getD 0 zeroCentroid)
            (([countryA, countryB] : List Country).getD
              (bestCluster ([countryA].getD 0 zeroCentroid) [countryA, countryB])
              zeroCentroid)
          < euclidean_distance_sq ([countryA].getD 0 zeroCentroid)
              (([countryA, countryB] : List Country).getD j zeroCentroid)) :=
  assign_clusters_first_min [countryA] [countryA, countryB] (by simp) 0 (by norm_num)

theorem build_graph_adjacency_witness :
    ((([countryA, countryB, countryC] : List Country).getD 1 zeroCentroid).name
        ∈ ((build_graph [countryA, countryB, countryC] 10).getD 0 ("", [])).2
      ↔ 1 ≠ 0 ∧
          distLt (([countryA, countryB, countryC] : List Country).getD 0 zeroCentroid)
            (([countryA, countryB, countryC] : List Country).getD 1 zeroCentroid) 10
            = true) ∧
      (([countryA, countryB, countryC] : List Country).getD 0 zeroCentroid).name
        ∉ ((build_graph [countryA, countryB, countryC] 10).getD 0 ("", [])).2 :=
  build_graph_adjacency [countryA, countryB, countryC] 10
    (by decide) 0 1 (by norm_num) (by norm_num)

theorem build_graph_symmetric_witness :
    (([countryA, countryB, countryC] : List Country).getD 1 zeroCentroid).name
      ∈ ((build_graph [countryA, countryB, countryC] 10).getD 0 ("", [])).2 :=
  build_graph_symmetric [countryA, countryB, countryC] 10 (by decide) 1 0
    (by norm_num) (by norm_num)
    ((mem_build_graph_iff [countryA, countryB, countryC] 10 (by decide) 1 0
        (by norm_num) (by norm_num)).mpr
      ⟨by norm_num,
        by norm_num [distLt, euclidean_distance_sq, countryA, countryB,
          List.getD_cons_zero, List.getD_cons_succ]⟩)

lemma list_sum_map_add {α : Type} (l : List α) (f g : α → ℚ) :
    (l.map fun x => f x + g x).sum = (l.map f).sum + (l.map g).sum := by
  induction l with
  | nil => simp
  | cons a rest ih =>
      simp only [List.map_cons, List.sum_cons, ih]
      ring

lemma sum_sq_exp (xs : List ℚ) (z : ℚ) :
    (xs.map fun x => (x - z) ^ 2).sum
      = (xs.map fun x => x ^ 2).sum - 2 * z * xs.sum + (xs.length : ℚ) * z ^ 2 := by
  induction xs with
  | nil => simp
  | cons a rest ih =>
      simp only [List.map_cons, List.sum_cons, List.length_cons, ih]
      push_cast
      ring

/-- The mean minimises the sum of squared deviations: the algebraic core of
the k-means improvement argument, one coordinate at a time. -/
lemma sum_sq_dev_mean_le (xs : List ℚ) (z : ℚ) (hne : xs ≠ []) :
    (xs.map fun x => (x - xs.sum / (xs.length : ℚ)) ^ 2).sum
      ≤ (xs.map fun x => (x - z) ^ 2).sum := by
  have hn : (0 : ℚ) < (xs.length : ℚ) := by
    have : 0 < xs.length := List.length_pos.mpr hne
    exact_mod_cast this
  rw [sum_sq_exp, sum_sq_exp]
  have expand : (xs.map fun x => x ^ 2).sum
        - 2 * (xs.sum / (xs.length : ℚ)) * xs.sum
        + (xs.length : ℚ) * (xs.sum / (xs.length : ℚ)) ^ 2
      = (xs.map fun x => x ^ 2).sum - xs.sum ^ 2 / (xs.length : ℚ) := by
    field_simp
    ring
  rw [expand]
  have hmain : ((xs.map fun x => x ^ 2).sum - xs.sum ^ 2 / (xs.length : ℚ))
        * (xs.length : ℚ)
      ≤ ((xs.map fun x => x ^ 2).sum - 2 * z * xs.sum + (xs.length : ℚ) * z ^ 2)
        * (xs.length : ℚ) := by
    have e1 : ((xs.map fun x => x ^ 2).sum - xs.sum ^ 2 / (xs.length : ℚ))
        * (xs.length : ℚ)
        = (xs.map fun x => x ^ 2).sum * (xs.length : ℚ) - xs.sum ^ 2 := by
      field_simp
    rw [e1]
    nlinarith [sq_nonneg ((xs.length : ℚ) * z - xs.sum)]
  exact le_of_mul_le_mul_right hmain hn

/-- Per cluster, the mean centroid produced by `update_centroids` has a
within-cluster squared-distance sum no larger than any other centroid's. -/
lemma cluster_mean_cost_le (members : List Country) (z : Country) :
    (members.map fun c => euclidean_distance_sq c (meanCentroid members)).sum
      ≤ (members.map fun c => euclidean_distance_sq c z).sum := by
  rcases eq_or_ne members [] with rfl | hne
  · simp
  have hexp : ∀ w : Country,
      (members.map fun c => euclidean_distance_sq c w).sum
        = (members.map fun c => (c.communicable - w.communicable) ^ 2).sum
          + (members.map fun c => (c.non_communicable - w.non_communicable) ^ 2).sum
          + (members.map fun c => (c.co2 - w.co2) ^ 2).sum := by
    intro w
    rw [← list_sum_map_add, ← list_sum_map_add]
    rfl
  rw [hexp (meanCentroid members), hexp z]
  have hcoord : ∀ (f : Country → ℚ) (zc : ℚ),
      (members.map fun c => (f c - (members.map f).sum / ((members.length : ℕ) : ℚ)) ^ 2).sum
        ≤ (members.map fun c => (f c - zc) ^ 2).sum := by
    intro f zc
    have h := sum_sq_dev_mean_le (members.map f) zc (by simpa using hne)
    rw [List.map_map, List.map_map, List.length_map] at h
    simpa [Function.comp] using h
  have h1 := hcoord (·.communicable) z.communicable
  have h2 := hcoord (·.non_communicable) z.non_communicable
  have h3 := hcoord (·.co2) z.co2
  have hm1 : (meanCentroid members).communicable
      = (members.map (·.communicable)).sum / ((members.length : ℕ) : ℚ) := rfl
  have hm2 : (meanCentroid members).non_communicable
      = (members.map (·.non_communicable)).sum / ((members.length : ℕ) : ℚ) := rfl
  have hm3 : (meanCentroid members).co2
      = (members.map (·.co2)).sum / ((members.length : ℕ) : ℚ) := rfl
  rw [hm1, hm2, hm3]
  exact add_le_add (add_le_add h1 h2) h3

lemma range_sum_update (k j0 : ℕ) (hj0 : j0 < k) (f g : ℕ → ℚ) (x : ℚ)
    (hothers : ∀ j, j ≠ j0 → f j = g j) (hj : f j0 = x + g j0) :
    ((List.range k).map f).sum = x + ((List.range k).map g).sum := by
  induction k with
  | zero => omega
  | succ k ih =>
      rw [List.range_succ, List.map_append, List.sum_append, List.map_append,
        List.sum_append]
      by_cases hk : j0 = k
      · subst hk
        have hmap : (List.range j0).map f = (List.range j0).map g := by
          apply List.map_congr_left
          intro a ha
          exact hothers a (by have := List.mem_range.mp ha; omega)
        rw [hmap]
        simp only [List.map_cons, List.map_nil, List.sum_cons, List.sum_nil, hj]
        ring
      · have hj0k : j0 < k := by omega
        rw [ih hj0k]
        have hfk : f k = g k := hothers k (by omega)
        simp only [List.map_cons, List.map_nil, List.sum_cons, List.sum_nil, hfk]
        ring

/-- Total cost, regrouped cluster by cluster. -/
lemma cost_regroup (cs cens : List Country) (k : ℕ)
    (hlab : ∀ c ∈ cs, ∃ j, c.cluster = some j ∧ j < k) :
    cost cs cens
      = ((List.range k).map fun j =>
          ((clusterMembers cs j).map fun c =>
            euclidean_distance_sq c (cens.getD j zeroCentroid)).sum).sum := by
  induction cs with
  | nil =>
      simp [cost, clusterMembers]
  | cons c rest ih =>
      rcases hlab c (by simp) with ⟨j0, hcl, hj0⟩
      have hrest : ∀ x ∈ rest, ∃ j, x.cluster = some j ∧ j < k := fun x hx =>
        hlab x (by simp [hx])
      have hhead : cost (c :: rest) cens = costOf c cens + cost rest cens := by
        simp [cost]
      rw [hhead, ih hrest]
      refine (range_sum_update k j0 hj0 _ _ (costOf c cens) ?_ ?_).symm
      · intro j hj
        rw [clusterMembers_cons_ne c rest j j0 hcl (fun h => hj h.symm)]
      · rw [clusterMembers_cons_eq c rest j0 hcl]
        simp only [List.map_cons, List.sum_cons]
        have : costOf c cens = euclidean_distance_sq c (cens.getD j0 zeroCentroid) := by
          simp [costOf, hcl]
        rw [this]

lemma assign_labels_lt (countries centroids : List Country) (k : ℕ)
    (hne : centroids ≠ []) (hlen : centroids.length ≤ k) :
    ∀ x ∈ assign_clusters countries centroids, ∃ j, x.cluster = some j ∧ j < k := by
  intro x hx
  rcases assign_clusters_mem countries centroids x hx with ⟨c, hc, rfl⟩
  exact ⟨bestCluster c centroids, rfl,
    lt_of_lt_of_le (bestCluster_spec c centroids hne).1 hlen⟩

/-- Reassigning against any nonempty centroid list never increases the cost
measured against that same list: each record moves to a closest centroid. -/
lemma assign_cost_le (cs cens : List Country) (hne : cens ≠ [])
    (hlab : ∀ c ∈ cs, ∃ j, c.cluster = some j ∧ j < cens.length) :
    cost (assign_clusters cs cens) cens ≤ cost cs cens := by
  unfold cost assign_clusters
  rw [List.map_map]
  apply List.sum_le_sum
  intro c hc
  rcases hlab c hc with ⟨j, hcl, hjlt⟩
  have h1 : (costOf · cens) ({ c with cluster := some (bestCluster c cens) }) =
      euclidean_distance_sq c (cens.getD (bestCluster c cens) zeroCentroid) := rfl
  have h2 : costOf c cens = euclidean_distance_sq c (cens.getD j zeroCentroid) := by
    simp [costOf, hcl]
  show (costOf · cens) ({ c with cluster := some (bestCluster c cens) }) ≤ costOf c cens
  rw [h1, h2]
  exact (bestCluster_spec c cens hne).2.1 j hjlt

/-- C8: one full iteration of the loop never increases the total
within-cluster squared distance: starting from the labels of an assignment
pass against the current centroids, adopting the update's candidate and
running the next assignment pass yields a total no larger than the current
one.  (At the final, convergence-triggering update the candidate is not
adopted and no further pass runs — the claim's stated exception.) -/
theorem kmeans_cost_monotone (countries centroids : List Country) (k : ℕ)
    (hne : centroids ≠ []) (hlen : centroids.length ≤ k) :
    cost (assign_clusters (assign_clusters countries centroids)
          (update_centroids (assign_clusters countries centroids) k))
        (update_centroids (assign_clusters countries centroids) k)
      ≤ cost (assign_clusters countries centroids) centroids := by
  have hlab1 : ∀ c ∈ assign_clusters countries centroids,
      ∃ j, c.cluster = some j ∧ j < k := assign_labels_lt countries centroids k hne hlen
  have hcen2len : (update_centroids (assign_clusters countries centroids) k).length = k :=
    update_centroids_length _ _
  have hcen2ne : update_centroids (assign_clusters countries centroids) k ≠ [] := by
    intro h
    rw [h] at hcen2len
    have hpos : 0 < centroids.length := List.length_pos.mpr hne
    simp at hcen2len
    omega
  have hlab2 : ∀ c ∈ assign_clusters countries centroids,
      ∃ j, c.cluster = some j
        ∧ j < (update_centroids (assign_clusters countries centroids) k).length := by
    intro c hc
    rcases hlab1 c hc with ⟨j, h1, h2⟩
    exact ⟨j, h1, by omega⟩
  have stepB := assign_cost_le (assign_clusters countries centroids)
    (update_centroids (assign_clusters countries centroids) k) hcen2ne hlab2
  have stepA : cost (assign_clusters countries centroids)
        (update_centroids (assign_clusters countries centroids) k)
      ≤ cost (assign_clusters countries centroids) centroids := by
    rw [cost_regroup _ _ k hlab1, cost_regroup _ _ k hlab1]
    apply List.sum_le_sum
    intro j hj
    by_cases hm : (clusterMembers (assign_clusters countries centroids) j).length = 0
    · rw [List.length_eq_zero.mp hm]
      simp
    · rw [update_centroids_getD _ _ _ (List.mem_range.mp hj), if_neg hm]
      exact cluster_mean_cost_le _ _
  exact le_trans stepB stepA

/-- `chooseFirst` satisfies the `choose_multiple` contract, so the concrete
runs above are possible executions of the program. -/
lemma chooseFirst_valid : ChoosesSample chooseFirst := by
  intro cs k
  constructor
  · simp [chooseFirst]
  · intro c hc
    exact List.mem_of_mem_take hc

theorem update_centroids_mean_or_zero_witness :
    ((clusterMembers [countryA0, countryB0, countryC1] 0).length ≠ 0 →
        (update_centroids [countryA0, countryB0, countryC1] 2).getD 0 zeroCentroid
          = meanCentroid (clusterMembers [countryA0, countryB0, countryC1] 0)) ∧
      ((clusterMembers [countryA0, countryB0, countryC1] 0).length = 0 →
        (update_centroids [countryA0, countryB0, countryC1] 2).getD 0 zeroCentroid
          = zeroCentroid) :=
  update_centroids_mean_or_zero [countryA0, countryB0, countryC1] 2 0 (by norm_num)
    (by
      intro c hc m hm
      fin_cases hc <;>
        simp_all [countryA0, countryB0, countryC1, countryA, countryB, countryC] <;>
        omega)

theorem kmeans_cost_monotone_witness :
    cost (assign_clusters
          (assign_clusters [countryA, countryB, countryC] [countryA, countryC])
          (update_centroids
            (assign_clusters [countryA, countryB, countryC] [countryA, countryC]) 2))
        (update_centroids
          (assign_clusters [countryA, countryB, countryC] [countryA, countryC]) 2)
      ≤ cost (assign_clusters [countryA, countryB, countryC] [countryA, countryC])
          [countryA, countryC] :=
  kmeans_cost_monotone [countryA, countryB, countryC] [countryA, countryC] 2
    (by simp) (by norm_num)
